import Mathlib

set_option maxRecDepth 1000000

/-!
Verification development for the zfs-list-gtk data pipeline.

The program's core (src/zfs-list-gtk.py) is shallowly embedded below:
`human_readable` (lines 25-46), `parse_zfs_list_output` (lines 49-58),
`build_treestore` (lines 61-108), the property-list handling of
`__main__` (lines 265-270) and `Gui.refresh_tree` (lines 206-221).

Python floats are modelled as exact rational values together with an
explicit round-to-53-bit-significand operation `fround` (round to
nearest, ties to even), applied wherever the Python code performs a
lossy float operation (int-to-float conversion, division by a
non-power-of-two).  All arithmetic is built from `Rat.divInt` and
integer operations so that every definition evaluates inside the
kernel; the bridge lemmas `qmul_eq` etc. relate the executable
operations to the standard field operations on ℚ.
-/

/-- Executable embedding of an integer into ℚ. -/
def qofInt (n : ℤ) : ℚ := Rat.divInt n 1

/-- Executable negation on ℚ. -/
def qneg (a : ℚ) : ℚ := Rat.divInt (-a.num) a.den

/-- Executable multiplication on ℚ. -/
def qmul (a b : ℚ) : ℚ := Rat.divInt (a.num * b.num) ((a.den : ℤ) * (b.den : ℤ))

/-- Executable inverse on ℚ. -/
def qinv (a : ℚ) : ℚ := Rat.divInt (a.den : ℤ) a.num

/-- Executable division on ℚ. -/
def qdiv (a b : ℚ) : ℚ := qmul a (qinv b)

/-- Executable subtraction on ℚ. -/
def qsub (a b : ℚ) : ℚ :=
  Rat.divInt (a.num * (b.den : ℤ) - b.num * (a.den : ℤ)) ((a.den : ℤ) * (b.den : ℤ))

/-- Executable absolute value on ℚ. -/
def qabs (a : ℚ) : ℚ := Rat.divInt (|a.num|) a.den

/-- Executable power of two with integer exponent. -/
def qpow2 (k : ℤ) : ℚ :=
  if 0 ≤ k then qofInt ((2 : ℤ) ^ k.toNat) else qinv (qofInt ((2 : ℤ) ^ (-k).toNat))

/-- Base-2 logarithm by structural recursion on a fuel argument (the kernel
cannot reduce the well-founded recursion of `Nat.log2`). -/
def log2fuel : ℕ → ℕ → ℕ
  | 0, _ => 0
  | f + 1, n => if n ≥ 2 then log2fuel f (n / 2) + 1 else 0

/-- Floor of the base-2 logarithm of a natural number. -/
def natLog2 (n : ℕ) : ℕ := log2fuel n n

/-- Round a rational to the nearest integer, ties to even.  This is the
rounding used both by IEEE-754 binary64 arithmetic and by Python's fixed
precision string formatting. -/
def roundHalfEvenInt (q : ℚ) : ℤ :=
  if qsub q (qofInt ⌊q⌋) < mkRat 1 2 then ⌊q⌋
  else if mkRat 1 2 < qsub q (qofInt ⌊q⌋) then ⌊q⌋ + 1
  else if ⌊q⌋ % 2 = 0 then ⌊q⌋ else ⌊q⌋ + 1

/-- Round a positive rational to 53 significant binary digits (nearest,
ties to even).  Intended for arguments that are at least 1; the program
only rounds such values. -/
def froundAux (a : ℚ) : ℚ :=
  qmul (qofInt (roundHalfEvenInt (qmul a (qpow2 ((52 : ℤ) - (natLog2 (⌊a⌋.toNat) : ℤ))))))
    (qpow2 ((natLog2 (⌊a⌋.toNat) : ℤ) - 52))

/-- The value of the IEEE-754 binary64 float nearest to `q` (ties to even):
the model of Python's lossy int-to-float and string-to-float conversions. -/
def fround (q : ℚ) : ℚ :=
  if q = 0 then 0
  else if q < 0 then qneg (froundAux (qneg q))
  else froundAux q

/-- Python float division: both operands are float values (an int operand is
first converted to float), and the exact quotient is rounded back to a
float. -/
def pyDiv (a b : ℚ) : ℚ := fround (qdiv (fround a) b)

/-- Left-pad a string with zeros to the given length (used for the digits
after the decimal point). -/
def padZeros (s : String) (len : ℕ) : String :=
  if s.length ≥ len then s else String.mk (List.replicate (len - s.length) '0') ++ s

/-- Python's fixed-precision float formatting: the exact (rational) value of
the float argument is rounded to `prec` decimal digits, ties to even. -/
def formatFixed (q : ℚ) (prec : ℕ) : String :=
  let scaled := roundHalfEvenInt (qmul q (qofInt ((10 : ℤ) ^ prec)))
  let sgn := if scaled < 0 ∨ (scaled = 0 ∧ q < 0) then "-" else ""
  let a := scaled.natAbs
  sgn ++ toString (a / 10 ^ prec) ++ "." ++ padZeros (toString (a % 10 ^ prec)) prec

/-- The for-loop of `human_readable` (src lines 30-35 and 40-45): walk the
unit list, return at the first unit where the magnitude is below the base
(two decimals below 10, one decimal otherwise), else divide and continue;
after the loop the terminal unit is used with one decimal (lines 36 and 46). -/
def hrLoop (base : ℚ) (sep : String) (term : String) : ℚ → List String → String
  | num, [] => formatFixed num 1 ++ sep ++ term
  | num, u :: us =>
    if qabs num < qofInt 10 then formatFixed num 2 ++ sep ++ u
    else if qabs num < base then formatFixed num 1 ++ sep ++ u
    else hrLoop base sep term (pyDiv num base) us

/-- Embedding of `human_readable(num, binary)` (src lines 25-46), branching
on the `binary` flag as the code's `if binary:` does. -/
def human_readable (num : ℤ) : Bool → String
  | true =>
    if |num| < 1024 then toString num ++ "B"
    else hrLoop (qofInt 1024) "" "YiB" (qofInt num) ["B", "K", "M", "G", "T", "P", "E", "Z"]
  | false =>
    if |num| < 1000 then toString num ++ " B"
    else hrLoop (qofInt 1000) " " "YB" (qofInt num)
      ["B", "KB", "MB", "GB", "TB", "PB", "EB", "ZB"]

/-- Loop of the formatter exactly as the specification and claim C7 word it:
the terminal unit is the last entry of the unit list, "used without further
division regardless of magnitude", and the two-decimals-below-10 /
one-decimal-otherwise rule applies at the terminal unit as well. -/
def claimed_loop (base : ℚ) (sep : String) : ℚ → List String → String
  | num, [u] =>
    (if qabs num < qofInt 10 then formatFixed num 2 else formatFixed num 1) ++ sep ++ u
  | num, u :: us =>
    if qabs num < qofInt 10 then formatFixed num 2 ++ sep ++ u
    else if qabs num < base then formatFixed num 1 ++ sep ++ u
    else claimed_loop base sep (pyDiv num base) us
  | num, [] => formatFixed num 1 ++ sep

/-- The formatter exactly as claim C7 states it, with terminal units `YB`
(decimal) and `Yi` (binary).  This definition follows the claim's words, to
be compared with `human_readable`, which follows the code. -/
def claimed_format (num : ℤ) : Bool → String
  | true =>
    if |num| < 1024 then toString num ++ "B"
    else claimed_loop (qofInt 1024) "" (qofInt num)
      ["B", "K", "M", "G", "T", "P", "E", "Z", "Yi"]
  | false =>
    if |num| < 1000 then toString num ++ " B"
    else claimed_loop (qofInt 1000) " " (qofInt num)
      ["B", "KB", "MB", "GB", "TB", "PB", "EB", "ZB", "YB"]

/-- Loop of the formatter as claim C7 must be amended to match the code: the
terminal unit is always rendered with one decimal place. -/
def amended_loop (base : ℚ) (sep : String) : ℚ → List String → String
  | num, [u] => formatFixed num 1 ++ sep ++ u
  | num, u :: us =>
    if qabs num < qofInt 10 then formatFixed num 2 ++ sep ++ u
    else if qabs num < base then formatFixed num 1 ++ sep ++ u
    else amended_loop base sep (pyDiv num base) us
  | num, [] => formatFixed num 1 ++ sep

/-- The formatter as claim C7 must be amended: binary terminal unit `YiB`
(not `Yi`), and the terminal unit always formatted with one decimal place. -/
def amended_format (num : ℤ) : Bool → String
  | true =>
    if |num| < 1024 then toString num ++ "B"
    else amended_loop (qofInt 1024) "" (qofInt num)
      ["B", "K", "M", "G", "T", "P", "E", "Z", "YiB"]
  | false =>
    if |num| < 1000 then toString num ++ " B"
    else amended_loop (qofInt 1000) " " (qofInt num)
      ["B", "KB", "MB", "GB", "TB", "PB", "EB", "ZB", "YB"]

/-- The size-property table (src lines 14-15). -/
def SIZE_PROPERTIES : List String :=
  ["used", "usedbychildren", "usedbydataset", "usedbysnapshots", "available", "referenced"]

/-- Worker for `pySplit`: accumulate the current field (reversed) while
walking the characters. -/
def splitAux (sep : Char) : List Char → List Char → List String
  | [], cur => [String.mk cur.reverse]
  | c :: cs, cur =>
    if c = sep then String.mk cur.reverse :: splitAux sep cs []
    else splitAux sep cs (c :: cur)

/-- Python's `str.split` with an explicit one-character separator: adjacent
separators yield empty fields and the empty string yields `[""]`. -/
def pySplit (sep : Char) (s : String) : List String := splitAux sep s.toList []

/-- A parsed record: the key/value pairs assigned to the Python dict, in
assignment order. -/
def Record := List (String × String)

/-- Lookup in a dict built by successive assignments: the last assignment to
a key wins. -/
def dictLookup (r : Record) (k : String) : Option String :=
  (List.find? (fun p => p.1 == k) (List.reverse r)).map (fun p => p.2)

/-- The failure outcomes of the fetch/parse/build cycle.  `indexError`,
`keyError` and `valueError` model the homonymous Python exceptions (all
uncaught, hence fatal); `emptyInventory` models the sys.exit at src line 72;
`malformedHierarchy` models the NameError raised at src line 107 when
`parent` was never assigned; `sourceUnavailable` models the sys.exit at src
line 69. -/
inductive BuildError where
  | sourceUnavailable
  | emptyInventory
  | indexError
  | keyError
  | valueError
  | malformedHierarchy
  deriving DecidableEq, Repr

/-- One line turned into a record (src lines 53-56): for each schema property
in order, assign `fields[i]`; an index beyond the end of `fields` raises
Python's IndexError. -/
def recordOfLine (fields : List String) : List String → ℕ → Except BuildError Record
  | [], _ => .ok []
  | p :: ps, i =>
    match fields[i]? with
    | none => .error .indexError
    | some v =>
      match recordOfLine fields ps (i + 1) with
      | .error e => .error e
      | .ok rest => .ok ((p, v) :: rest)

/-- Embedding of `parse_zfs_list_output(lines, props)` (src lines 49-58):
skip empty lines, split each remaining line on tab, build one record per
line.  An error on any line aborts the whole parse (the exception
propagates), so no record list is produced. -/
def parse_zfs_list_output : List String → List String → Except BuildError (List Record)
  | [], _ => .ok []
  | line :: rest, props =>
    if line = "" then parse_zfs_list_output rest props
    else
      match recordOfLine (pySplit '\t' line) props 0 with
      | .error e => .error e
      | .ok r =>
        match parse_zfs_list_output rest props with
        | .error e => .error e
        | .ok rs => .ok (r :: rs)

/-- One value appended to a TreeStore row: a display string or a float sort
key. -/
inductive Cell where
  | s (v : String)
  | f (v : ℚ)
  deriving DecidableEq

/-- A node of the tree store: its row of cells, the `type` value of the
record that produced it, and its child nodes. -/
inductive GNode where
  | mk (row : List Cell) (kind : String) (children : List GNode)

def GNode.row : GNode → List Cell
  | .mk r _ _ => r

def GNode.kind : GNode → String
  | .mk _ k _ => k

def GNode.children : GNode → List GNode
  | .mk _ _ c => c

/-- Digits of a decimal literal accumulated left to right; any non-digit
character fails. -/
def digitsVal : List Char → ℕ → Option ℕ
  | [], acc => some acc
  | c :: cs, acc =>
    if c.isDigit then digitsVal cs (acc * 10 + (c.toNat - 48)) else none

/-- Python's `int()` on the strings produced by `zfs list -p`: an optional
sign followed by at least one digit; anything else raises ValueError. -/
def pyInt (v : String) : Except BuildError ℤ :=
  match v.toList with
  | [] => .error .valueError
  | '-' :: c :: cs =>
    match digitsVal (c :: cs) 0 with
    | some n => .ok (-(n : ℤ))
    | none => .error .valueError
  | '+' :: c :: cs =>
    match digitsVal (c :: cs) 0 with
    | some n => .ok ((n : ℤ))
    | none => .error .valueError
  | c :: cs =>
    match digitsVal (c :: cs) 0 with
    | some n => .ok ((n : ℤ))
    | none => .error .valueError

/-- The cells contributed by one property of one record (src lines 87-100):
a size property yields a display/sort-key pair (`'-'` maps to the literal
dash with sort key 0), `creation` yields a timestamp/sort-key pair, and any
other property yields its raw string.  The `strf` parameter stands for the
`time.strftime('%a %b %d %H:%M %Y', time.localtime(_))` rendering, an
external dependency of the code. -/
def cellsForProp (strf : ℤ → String) (fs : Record) (prop : String) :
    Except BuildError (List Cell) :=
  if prop ∈ SIZE_PROPERTIES then
    match dictLookup fs prop with
    | none => .error .keyError
    | some v =>
      if v = "-" then .ok [.s "-", .f 0]
      else
        match pyInt v with
        | .error e => .error e
        | .ok n => .ok [.s (human_readable n true), .f (fround (qofInt n))]
  else if prop = "creation" then
    match dictLookup fs prop with
    | none => .error .keyError
    | some v =>
      match pyInt v with
      | .error e => .error e
      | .ok n => .ok [.s (strf n), .f (fround (qofInt n))]
  else
    match dictLookup fs prop with
    | none => .error .keyError
    | some v => .ok [.s v]

/-- The row of one record (src lines 86-100): each schema property
contributes its cells, concatenated in schema order. -/
def buildRow (strf : ℤ → String) (fs : Record) : List String → Except BuildError (List Cell)
  | [] => .ok []
  | p :: ps =>
    match cellsForProp strf fs p with
    | .error e => .error e
    | .ok cs =>
      match buildRow strf fs ps with
      | .error e => .error e
      | .ok rest => .ok (cs ++ rest)

/-- The node one record produces: its row plus the record's `type` value
(read at src line 103; a record without `type` raises KeyError there).  A
freshly appended node has no children. -/
def mkNode (props : List String) (strf : ℤ → String) (fs : Record) :
    Except BuildError GNode :=
  match buildRow strf fs props with
  | .error e => .error e
  | .ok row =>
    match dictLookup fs "type" with
    | none => .error .keyError
    | some k => .ok (GNode.mk row k [])

/-- Appending one node to the store (src lines 102-107).  The accumulator is
the list of root nodes in reverse order; its head is the current owning
filesystem (the Python variable `parent`).  A snapshot with no previously
seen filesystem raises NameError (`parent` unbound), modelled as
`malformedHierarchy`.  A record of any other type appends nothing and leaves
`parent` unchanged. -/
def addNode (acc : List GNode) (n : GNode) : Except BuildError (List GNode) :=
  if n.kind = "filesystem" then .ok (n :: acc)
  else if n.kind = "snapshot" then
    match acc with
    | [] => .error .malformedHierarchy
    | p :: rest => .ok (GNode.mk p.row p.kind (p.children ++ [n]) :: rest)
  else .ok acc

/-- The record loop of `build_treestore` (src lines 84-107): build each row
and append it, in input order. -/
def build_tree_aux (props : List String) (strf : ℤ → String) :
    List Record → List GNode → Except BuildError (List GNode)
  | [], acc => .ok acc.reverse
  | r :: rs, acc =>
    match mkNode props strf r with
    | .error e => .error e
    | .ok n =>
      match addNode acc n with
      | .error e => .error e
      | .ok acc2 => build_tree_aux props strf rs acc2

/-- The tree built from a record sequence (src lines 84-108). -/
def build_tree (records : List Record) (props : List String) (strf : ℤ → String) :
    Except BuildError (List GNode) :=
  build_tree_aux props strf records []

/-- The nodes of all records, in input order, before any hierarchy is
attached (specification helper: `build_tree` interleaves node construction
and appending; on success the two phases agree). -/
def mkNodes (props : List String) (strf : ℤ → String) :
    List Record → Except BuildError (List GNode)
  | [] => .ok []
  | r :: rs =>
    match mkNode props strf r with
    | .error e => .error e
    | .ok n =>
      match mkNodes props strf rs with
      | .error e => .error e
      | .ok ns => .ok (n :: ns)

/-- Folding pre-built nodes into the store with `addNode` (specification
helper). -/
def foldAdd : List GNode → List GNode → Except BuildError (List GNode)
  | acc, [] => .ok acc.reverse
  | acc, n :: ns =>
    match addNode acc n with
    | .error e => .error e
    | .ok acc2 => foldAdd acc2 ns

/-- Embedding of `build_treestore` (src lines 61-108) from the point where
the external command has succeeded: `rawOutput` is the decoded stdout of
`zfs list`.  The code errors out only when the raw output equals the empty
string (`output == ['']` at src line 71); it then parses with the schema
`props + ['type']` and builds the tree. -/
def build_treestore (rawOutput : String) (props : List String) (strf : ℤ → String) :
    Except BuildError (List GNode) :=
  if pySplit '\n' rawOutput = [""] then .error .emptyInventory
  else
    match parse_zfs_list_output (pySplit '\n' rawOutput) (props ++ ["type"]) with
    | .error e => .error e
    | .ok filesystems => build_tree filesystems props strf

/-- Embedding of the property-list handling of `__main__` (src lines
265-270): split on comma, prepend `name` when absent, then resolve the
aliases avail, refer and ratio in that order. -/
def normalize_props (o : String) : List String :=
  (((if "name" ∈ pySplit ',' o then pySplit ',' o else "name" :: pySplit ',' o).map
    (fun p => if p = "avail" then "available" else p)).map
    (fun p => if p = "refer" then "referenced" else p)).map
    (fun p => if p = "ratio" then "compressratio" else p)

/-- Enumerate a list with indices starting at `i` (Python's `enumerate`). -/
def enumFrom {α : Type} : ℕ → List α → List (ℕ × α)
  | _, [] => []
  | i, x :: xs => (i, x) :: enumFrom (i + 1) xs

/-- `row[0]` of a node: the first column, the dataset name (rows are never
empty, since the schema always contains `name`). -/
def rowKey (n : GNode) : Cell := n.row.headD (Cell.s "")

/-- The capture loop of `refresh_tree` (src lines 208-211): the first-column
values of the expanded top-level rows of the store, in order. -/
def capture_expanded_rows (store : List GNode) (isExpanded : ℕ → Bool) : List Cell :=
  ((enumFrom 0 store).filter (fun p => isExpanded p.1)).map (fun p => rowKey p.2)

/-- The expansion loop of `refresh_tree` (src lines 219-221): the code
iterates `self.store` — still the OLD store, never reassigned after
`set_model` — and expands tree path `i` in the view (which now displays the
new store) whenever old row `i` has its first column in `expanded_rows`. -/
def expand_indices (store : List GNode) (expandedRows : List Cell) : List ℕ :=
  ((enumFrom 0 store).filter (fun p => decide (rowKey p.2 ∈ expandedRows))).map
    (fun p => p.1)

/-- Embedding of `Gui.refresh_tree` (src lines 206-221): the list of
top-level tree paths that get expanded in the view after the refresh.  The
newly built store plays no role: the code reads `self.store` both when
capturing and when expanding. -/
def refresh_tree (oldStore : List GNode) (isExpanded : ℕ → Bool) : List ℕ :=
  expand_indices oldStore (capture_expanded_rows oldStore isExpanded)

/-- The identity keys (first columns) of the new-store rows that end up
expanded after a refresh: tree path `i` addresses row `i` of the new store,
and an out-of-range path expands nothing. -/
def expanded_keys_after_refresh (oldStore : List GNode) (isExpanded : ℕ → Bool)
    (newStore : List GNode) : List Cell :=
  (refresh_tree oldStore isExpanded).filterMap (fun i => (newStore[i]?).map rowKey)

/-- The observable content of a node: its row and kind (children excluded). -/
def nodeInfo (n : GNode) : List Cell × String := (n.row, n.kind)

/-- Preorder flattening of a depth-1 store: each root followed by its
children. -/
def flattenInfo : List GNode → List (List Cell × String)
  | [] => []
  | n :: t => (nodeInfo n :: n.children.map nodeInfo) ++ flattenInfo t

/-- Trivial stand-in for the timestamp renderer in concrete instantiations
(none of them uses a `creation` column). -/
def strf0 : ℤ → String := fun _ => ""

def tankNode : GNode :=
  GNode.mk [Cell.s "tank"] "filesystem" [GNode.mk [Cell.s "tank@s1"] "snapshot" []]

def zpoolNode : GNode :=
  GNode.mk [Cell.s "zpool"] "filesystem" [GNode.mk [Cell.s "zpool@s1"] "snapshot" []]

/-- An old store whose first root is `tank` and second is `zpool`. -/
def oldStore1 : List GNode := [tankNode, zpoolNode]

/-- A new store with the same two filesystems in the opposite order. -/
def newStore1 : List GNode := [zpoolNode, tankNode]

def fsRec : Record := [("name", "tank"), ("type", "filesystem")]

def snapRec : Record := [("name", "tank@s1"), ("type", "snapshot")]

def volRec : Record := [("name", "vol1"), ("type", "volume")]

def sampleRecs : List Record := [fsRec, snapRec]

def sampleProps : List String := ["name"]

def sampleTree : List GNode :=
  [GNode.mk [Cell.s "tank"] "filesystem" [GNode.mk [Cell.s "tank@s1"] "snapshot" []]]

def sampleNodes : List GNode :=
  [GNode.mk [Cell.s "tank"] "filesystem" [], GNode.mk [Cell.s "tank@s1"] "snapshot" []]

def usedRec : Record := [("name", "tank"), ("used", "1536"), ("type", "filesystem")]

def bigRec : Record := [("name", "tank"), ("used", "9007199254740993"), ("type", "filesystem")]

theorem qofInt_eq (n : ℤ) : qofInt n = (n : ℚ) := Rat.divInt_one n

theorem qneg_eq (a : ℚ) : qneg a = -a := by
  rw [qneg, ← Rat.neg_divInt, Rat.num_divInt_den]

theorem qmul_eq (a b : ℚ) : qmul a b = a * b := by
  rw [qmul, Rat.divInt_eq_div]
  push_cast
  conv_rhs => rw [← Rat.num_div_den a, ← Rat.num_div_den b]
  rw [div_mul_div_comm]

theorem qinv_eq (a : ℚ) : qinv a = a⁻¹ := (Rat.inv_def' a).symm

theorem qdiv_eq (a b : ℚ) : qdiv a b = a / b := by
  rw [qdiv, qmul_eq, qinv_eq, div_eq_mul_inv]

theorem qsub_eq (a b : ℚ) : qsub a b = a - b := by
  rw [qsub, Rat.divInt_eq_div]
  push_cast
  conv_rhs => rw [← Rat.num_div_den a, ← Rat.num_div_den b]
  rw [div_sub_div _ _ (by positivity) (by positivity)]
  ring_nf

theorem qabs_eq (a : ℚ) : qabs a = |a| := by
  rcases le_or_lt 0 a with h | h
  · rw [abs_of_nonneg h, qabs, abs_of_nonneg (Rat.num_nonneg.mpr h), Rat.num_divInt_den]
  · rw [abs_of_neg h, qabs, abs_of_neg (Rat.num_neg.mpr h), ← Rat.neg_divInt,
      Rat.num_divInt_den]

theorem qpow2_eq (k : ℤ) : qpow2 k = (2 : ℚ) ^ k := by
  rcases le_or_lt 0 k with h | h
  · rw [qpow2, if_pos h, qofInt_eq]
    push_cast
    rw [← zpow_natCast (2 : ℚ) k.toNat, Int.toNat_of_nonneg h]
  · rw [qpow2, if_neg (not_le.mpr h), qinv_eq, qofInt_eq]
    push_cast
    rw [← zpow_natCast (2 : ℚ) (-k).toNat, Int.toNat_of_nonneg (by omega : (0:ℤ) ≤ -k),
      ← zpow_neg, neg_neg]

theorem log2fuel_bounds : ∀ (f n : ℕ), n ≤ f → n ≠ 0 →
    2 ^ log2fuel f n ≤ n ∧ n < 2 ^ (log2fuel f n + 1) := by
  intro f
  induction f with
  | zero => intro n hn h0; omega
  | succ f ih =>
    intro n hn h0
    by_cases h2 : n ≥ 2
    · have hrec := ih (n / 2) (by omega) (by omega)
      have h1 := hrec.1
      have hlt := hrec.2
      rw [log2fuel, if_pos h2]
      constructor
      · calc 2 ^ (log2fuel f (n / 2) + 1) = 2 * 2 ^ log2fuel f (n / 2) := by ring
        _ ≤ 2 * (n / 2) := by omega
        _ ≤ n := by omega
      · have : 2 ^ (log2fuel f (n / 2) + 1 + 1) = 2 * 2 ^ (log2fuel f (n / 2) + 1) := by ring
        omega
    · rw [log2fuel, if_neg h2]
      simp only [pow_zero, pow_one]
      omega

theorem natLog2_bounds (n : ℕ) (h0 : n ≠ 0) :
    2 ^ natLog2 n ≤ n ∧ n < 2 ^ (natLog2 n + 1) :=
  log2fuel_bounds n n le_rfl h0

theorem amended_loop_cons2 (base : ℚ) (sep : String) (num : ℚ) (u v : String)
    (rest : List String) :
    amended_loop base sep num (u :: v :: rest) =
      if qabs num < qofInt 10 then formatFixed num 2 ++ sep ++ u
      else if qabs num < base then formatFixed num 1 ++ sep ++ u
      else amended_loop base sep (pyDiv num base) (v :: rest) := rfl

theorem hrLoop_cons (base : ℚ) (sep term : String) (num : ℚ) (u : String)
    (us : List String) :
    hrLoop base sep term num (u :: us) =
      if qabs num < qofInt 10 then formatFixed num 2 ++ sep ++ u
      else if qabs num < base then formatFixed num 1 ++ sep ++ u
      else hrLoop base sep term (pyDiv num base) us := rfl

theorem amended_loop_eq_hrLoop (base : ℚ) (sep term : String) :
    ∀ (us : List String) (num : ℚ),
      amended_loop base sep num (us ++ [term]) = hrLoop base sep term num us := by
  intro us
  induction us with
  | nil => intro num; rfl
  | cons u tail ih =>
    intro num
    cases tail with
    | nil =>
      show amended_loop base sep num (u :: term :: []) = hrLoop base sep term num (u :: [])
      rw [amended_loop_cons2, hrLoop_cons]
      by_cases h1 : qabs num < qofInt 10
      · rw [if_pos h1, if_pos h1]
      · rw [if_neg h1, if_neg h1]
        by_cases h2 : qabs num < base
        · rw [if_pos h2, if_pos h2]
        · rw [if_neg h2, if_neg h2]
          exact ih (pyDiv num base)
    | cons v tail2 =>
      show amended_loop base sep num (u :: v :: (tail2 ++ [term])) =
        hrLoop base sep term num (u :: v :: tail2)
      rw [amended_loop_cons2, hrLoop_cons]
      by_cases h1 : qabs num < qofInt 10
      · rw [if_pos h1, if_pos h1]
      · rw [if_neg h1, if_neg h1]
        by_cases h2 : qabs num < base
        · rw [if_pos h2, if_pos h2]
        · rw [if_neg h2, if_neg h2]
          exact ih (pyDiv num base)

theorem roundHalfEvenInt_intCast (k : ℤ) : roundHalfEvenInt (qofInt k) = k := by
  have hf : ⌊qofInt k⌋ = k := by rw [qofInt_eq]; exact Int.floor_intCast k
  have hsub : qsub (qofInt k) (qofInt ⌊qofInt k⌋) = 0 := by rw [hf, qsub_eq]; ring
  have hhalf : (0 : ℚ) < mkRat 1 2 := by norm_num
  rw [roundHalfEvenInt, hsub, if_pos hhalf, hf]

theorem qmul_qofInt (a b : ℤ) : qmul (qofInt a) (qofInt b) = qofInt (a * b) := by
  rw [qmul_eq, qofInt_eq, qofInt_eq, qofInt_eq]
  push_cast
  ring

theorem froundAux_intCast (n : ℤ) (h1 : 1 ≤ n) (h53 : n < 2 ^ 53) :
    froundAux (qofInt n) = qofInt n := by
  have hfl : ⌊qofInt n⌋ = n := by rw [qofInt_eq]; exact Int.floor_intCast n
  rw [froundAux, hfl]
  have hnt : n.toNat ≠ 0 := by omega
  obtain ⟨hle, hlt⟩ := natLog2_bounds n.toNat hnt
  have hp53i : (2 : ℤ) ^ 53 = 9007199254740992 := by norm_num
  have hp53n : (2 : ℕ) ^ 53 = 9007199254740992 := by norm_num
  have hntlt : n.toNat < 2 ^ 53 := by omega
  have he : natLog2 n.toNat ≤ 52 := by
    by_contra hc
    push_neg at hc
    have h2 : (2 : ℕ) ^ 53 ≤ 2 ^ natLog2 n.toNat := Nat.pow_le_pow_right (by omega) (by omega)
    omega
  have hpos : (0 : ℤ) ≤ (52 : ℤ) - (natLog2 n.toNat : ℤ) := by omega
  have hk : ((52 : ℤ) - (natLog2 n.toNat : ℤ)).toNat = 52 - natLog2 n.toNat := by omega
  rw [qpow2, if_pos hpos, hk, qmul_qofInt, roundHalfEvenInt_intCast, qmul_eq, qofInt_eq,
    qofInt_eq, qpow2_eq]
  push_cast
  have hone : (2 : ℚ) ^ (52 - natLog2 n.toNat) *
      (2 : ℚ) ^ ((natLog2 n.toNat : ℤ) - 52) = 1 := by
    rw [← zpow_natCast (2 : ℚ) (52 - natLog2 n.toNat),
      ← zpow_add₀ (by norm_num : (2 : ℚ) ≠ 0)]
    have hz : ((52 - natLog2 n.toNat : ℕ) : ℤ) + ((natLog2 n.toNat : ℤ) - 52) = 0 := by omega
    rw [hz, zpow_zero]
  rw [mul_assoc, hone, mul_one]

theorem fround_intCast (n : ℤ) (h0 : 0 ≤ n) (h53 : n ≤ 2 ^ 53) :
    fround (qofInt n) = qofInt n := by
  by_cases hz : n = 0
  · subst hz
    have h : qofInt 0 = 0 := by rw [qofInt_eq]; norm_num
    rw [h, fround, if_pos rfl]
  · by_cases h253 : n = 2 ^ 53
    · subst h253
      decide
    · have hq : ¬ qofInt n = 0 := by
        rw [qofInt_eq]
        exact_mod_cast hz
      have hqn : ¬ qofInt n < 0 := by
        rw [not_lt, qofInt_eq]
        exact_mod_cast h0
      rw [fround, if_neg hq, if_neg hqn]
      exact froundAux_intCast n (by omega) (lt_of_le_of_ne h53 h253)

/-- C7 (amended): for every integer value, `human_readable` agrees with
the claim's description of the formatter once the terminal unit is
corrected: in binary mode the terminal suffix is `YiB` (not `Yi`), and in
both modes the terminal unit is always rendered with one decimal place
(the two-decimals-below-10 rule applies only to non-terminal units). -/
theorem human_readable_eq_amended_format (num : ℤ) (binary : Bool) :
    human_readable num binary = amended_format num binary := by
  cases binary with
  | false =>
    show (if |num| < 1000 then toString num ++ " B"
        else hrLoop (qofInt 1000) " " "YB" (qofInt num)
          ["B", "KB", "MB", "GB", "TB", "PB", "EB", "ZB"]) =
      (if |num| < 1000 then toString num ++ " B"
        else amended_loop (qofInt 1000) " " (qofInt num)
          ["B", "KB", "MB", "GB", "TB", "PB", "EB", "ZB", "YB"])
    by_cases h : |num| < 1000
    · rw [if_pos h, if_pos h]
    · rw [if_neg h, if_neg h]
      exact (amended_loop_eq_hrLoop (qofInt 1000) " " "YB"
        ["B", "KB", "MB", "GB", "TB", "PB", "EB", "ZB"] (qofInt num)).symm
  | true =>
    show (if |num| < 1024 then toString num ++ "B"
        else hrLoop (qofInt 1024) "" "YiB" (qofInt num)
          ["B", "K", "M", "G", "T", "P", "E", "Z"]) =
      (if |num| < 1024 then toString num ++ "B"
        else amended_loop (qofInt 1024) "" (qofInt num)
          ["B", "K", "M", "G", "T", "P", "E", "Z", "YiB"])
    by_cases h : |num| < 1024
    · rw [if_pos h, if_pos h]
    · rw [if_neg h, if_neg h]
      exact (amended_loop_eq_hrLoop (qofInt 1024) "" "YiB"
        ["B", "K", "M", "G", "T", "P", "E", "Z"] (qofInt num)).symm

theorem parse_empty_lines (props : List String) :
    ∀ lines : List String, (∀ l ∈ lines, l = "") →
      parse_zfs_list_output lines props = .ok [] := by
  intro lines
  induction lines with
  | nil => intro _; rfl
  | cons line rest ih =>
    intro h
    have hline : line = "" := h line (List.mem_cons_self line rest)
    show (if line = "" then parse_zfs_list_output rest props else _) = _
    rw [if_pos hline]
    exact ih (fun l hl => h l (List.mem_cons_of_mem line hl))

theorem recordOfLine_ok (fields : List String) :
    ∀ (ps : List String) (i : ℕ), i + ps.length ≤ fields.length →
      (recordOfLine fields ps i).isOk = true := by
  intro ps
  induction ps with
  | nil => intro i _; rfl
  | cons p ps ih =>
    intro i h
    have hi : i < fields.length := by
      have := List.length_cons p ps
      omega
    rw [recordOfLine, List.getElem?_eq_getElem hi]
    have hih := ih (i + 1) (by have := List.length_cons p ps; omega)
    cases hr : recordOfLine fields ps (i + 1) with
    | error e => rw [hr] at hih; exact absurd hih (by simp [Except.isOk, Except.toBool])
    | ok rest => rfl

theorem recordOfLine_err (fields : List String) :
    ∀ (ps : List String) (i : ℕ), ps ≠ [] → fields.length < i + ps.length →
      (recordOfLine fields ps i).isOk = false := by
  intro ps
  induction ps with
  | nil => intro i h _; exact absurd rfl h
  | cons p ps ih =>
    intro i _ h
    rw [recordOfLine]
    cases hget : fields[i]? with
    | none => rfl
    | some v =>
      have hi : i < fields.length := by
        by_contra hc
        rw [List.getElem?_eq_none (by omega)] at hget
        exact Option.noConfusion hget
      have hne : ps ≠ [] := by
        intro hnil
        subst hnil
        simp only [List.length_cons, List.length_nil] at h
        omega
      have hih := ih (i + 1) hne (by have := List.length_cons p ps; omega)
      cases hr : recordOfLine fields ps (i + 1) with
      | error e => rfl
      | ok rest => rw [hr] at hih; exact absurd hih (by simp [Except.isOk, Except.toBool])

theorem parse_all_lines_ok (props : List String) :
    ∀ lines : List String,
      (∀ l ∈ lines, l ≠ "" → props.length ≤ (pySplit '\t' l).length) →
      (parse_zfs_list_output lines props).isOk = true := by
  intro lines
  induction lines with
  | nil => intro _; rfl
  | cons line rest ih =>
    intro h
    have hrest := ih (fun l hl => h l (List.mem_cons_of_mem line hl))
    by_cases hline : line = ""
    · show (if line = "" then parse_zfs_list_output rest props else _).isOk = true
      rw [if_pos hline]
      exact hrest
    · show (if line = "" then _ else
        match recordOfLine (pySplit '\t' line) props 0 with
        | Except.error e => Except.error e
        | Except.ok r =>
          match parse_zfs_list_output rest props with
          | Except.error e => Except.error e
          | Except.ok rs => Except.ok (r :: rs)).isOk = true
      rw [if_neg hline]
      have hrec := recordOfLine_ok (pySplit '\t' line) props 0
        (by have := h line (List.mem_cons_self line rest) hline; omega)
      cases hr : recordOfLine (pySplit '\t' line) props 0 with
      | error e => rw [hr] at hrec; exact absurd hrec (by simp [Except.isOk, Except.toBool])
      | ok r =>
        cases hp : parse_zfs_list_output rest props with
        | error e => rw [hp] at hrest; exact absurd hrest (by simp [Except.isOk, Except.toBool])
        | ok rs => rfl

theorem parse_short_line_fails (lines props : List String) (l : String)
    (hl : l ∈ lines) (hne : l ≠ "")
    (hcount : (pySplit '\t' l).length < props.length) :
    (parse_zfs_list_output lines props).isOk = false := by
  induction lines with
  | nil => exact absurd hl (List.not_mem_nil l)
  | cons line rest ih =>
    have hprops : props ≠ [] := by
      intro hp
      rw [hp] at hcount
      simp only [List.length_nil] at hcount
      omega
    by_cases hline : line = ""
    · show (if line = "" then parse_zfs_list_output rest props else _).isOk = false
      rw [if_pos hline]
      rcases List.mem_cons.mp hl with heq | hmem
      · exact absurd (heq ▸ hline) hne
      · exact ih hmem
    · show (if line = "" then _ else
        match recordOfLine (pySplit '\t' line) props 0 with
        | Except.error e => Except.error e
        | Except.ok r =>
          match parse_zfs_list_output rest props with
          | Except.error e => Except.error e
          | Except.ok rs => Except.ok (r :: rs)).isOk = false
      rw [if_neg hline]
      rcases List.mem_cons.mp hl with heq | hmem
      · subst heq
        have hrec := recordOfLine_err (pySplit '\t' l) props 0 hprops (by omega)
        cases hr : recordOfLine (pySplit '\t' l) props 0 with
        | error e => rfl
        | ok r => rw [hr] at hrec; exact absurd hrec (by simp [Except.isOk, Except.toBool])
      · cases hr : recordOfLine (pySplit '\t' line) props 0 with
        | error e => rfl
        | ok r =>
          cases hp : parse_zfs_list_output rest props with
          | error e => rfl
          | ok rs =>
            have := ih hmem
            rw [hp] at this
            exact absurd this (by simp [Except.isOk, Except.toBool])

theorem mem_map_alias_self (l : List String) (a b x : String) (hx : x ∈ l) (hne : x ≠ a) :
    x ∈ l.map (fun p => if p = a then b else p) :=
  List.mem_map.mpr ⟨x, hx, by rw [if_neg hne]⟩

theorem not_mem_map_alias (l : List String) (a b : String) (hab : b ≠ a) :
    a ∉ l.map (fun p => if p = a then b else p) := by
  intro h
  obtain ⟨x, _, hfx⟩ := List.mem_map.mp h
  by_cases hxa : x = a
  · rw [if_pos hxa] at hfx
    exact hab hfx
  · rw [if_neg hxa] at hfx
    exact hxa hfx

theorem not_mem_map_alias_of_not_mem (l : List String) (a b c : String) (hc : c ∉ l)
    (hcb : c ≠ b) : c ∉ l.map (fun p => if p = a then b else p) := by
  intro h
  obtain ⟨x, hx, hfx⟩ := List.mem_map.mp h
  by_cases hxa : x = a
  · rw [if_pos hxa] at hfx
    exact hcb hfx.symm
  · rw [if_neg hxa] at hfx
    rw [hfx] at hx
    exact hc hx

/-- C3 (amended): for every comma-separated property string, the
normalized list always contains `name` and never contains the aliases
`avail`, `refer` or `ratio`; and when `name` is absent from the split
input, it is prepended, ending at index 0.  The code does not deduplicate
and does not move an existing `name` to the front, so the claimed
invariants (no duplicates, `name` at index 0) hold only in this weakened
form. -/
theorem normalize_props_spec (o : String) :
    "name" ∈ normalize_props o ∧
    "avail" ∉ normalize_props o ∧
    "refer" ∉ normalize_props o ∧
    "ratio" ∉ normalize_props o ∧
    ("name" ∉ pySplit ',' o → (normalize_props o).head? = some "name") := by
  unfold normalize_props
  have hname0 : "name" ∈ (if "name" ∈ pySplit ',' o then pySplit ',' o
      else "name" :: pySplit ',' o) := by
    split
    · assumption
    · exact List.mem_cons_self _ _
  refine ⟨?_, ?_, ?_, ?_, ?_⟩
  · exact mem_map_alias_self _ _ _ _
      (mem_map_alias_self _ _ _ _
        (mem_map_alias_self _ _ _ _ hname0 (by decide)) (by decide)) (by decide)
  · exact not_mem_map_alias_of_not_mem _ _ _ _
      (not_mem_map_alias_of_not_mem _ _ _ _
        (not_mem_map_alias _ _ _ (by decide)) (by decide)) (by decide)
  · exact not_mem_map_alias_of_not_mem _ _ _ _
      (not_mem_map_alias _ _ _ (by decide)) (by decide)
  · exact not_mem_map_alias _ _ _ (by decide)
  · intro hno
    rw [if_neg hno]
    rfl

/-- C9 (amended): the build cycle fails with the EmptyInventory error
exactly when the raw command output is the empty string; a non-empty
output consisting only of blank lines yields no records but produces an
empty tree without any error. -/
theorem build_treestore_empty_cases (props : List String) (strf : ℤ → String) :
    build_treestore "" props strf = .error .emptyInventory ∧
    (∀ rawOutput : String, pySplit '\n' rawOutput ≠ [""] →
      (∀ l ∈ pySplit '\n' rawOutput, l = "") →
      build_treestore rawOutput props strf = .ok []) := by
  constructor
  · rfl
  · intro raw h1 h2
    show (if pySplit '\n' raw = [""] then Except.error BuildError.emptyInventory else
      match parse_zfs_list_output (pySplit '\n' raw) (props ++ ["type"]) with
      | Except.error e => Except.error e
      | Except.ok filesystems => build_tree filesystems props strf) = Except.ok []
    rw [if_neg h1, parse_empty_lines (props ++ ["type"]) _ h2]
    rfl

theorem build_tree_aux_cons (props : List String) (strf : ℤ → String) (r : Record)
    (rs : List Record) (acc : List GNode) :
    build_tree_aux props strf (r :: rs) acc =
      match mkNode props strf r with
      | Except.error e => Except.error e
      | Except.ok n =>
        match addNode acc n with
        | Except.error e => Except.error e
        | Except.ok acc2 => build_tree_aux props strf rs acc2 := rfl

theorem mkNodes_cons (props : List String) (strf : ℤ → String) (r : Record)
    (rs : List Record) :
    mkNodes props strf (r :: rs) =
      match mkNode props strf r with
      | Except.error e => Except.error e
      | Except.ok n =>
        match mkNodes props strf rs with
        | Except.error e => Except.error e
        | Except.ok ns => Except.ok (n :: ns) := rfl

theorem foldAdd_cons (acc : List GNode) (n : GNode) (ns : List GNode) :
    foldAdd acc (n :: ns) =
      match addNode acc n with
      | Except.error e => Except.error e
      | Except.ok acc2 => foldAdd acc2 ns := rfl

theorem addNode_fs (acc : List GNode) (n : GNode) (h : n.kind = "filesystem") :
    addNode acc n = .ok (n :: acc) := by
  unfold addNode
  rw [if_pos h]

theorem addNode_snap_nil (n : GNode) (h1 : n.kind ≠ "filesystem")
    (h2 : n.kind = "snapshot") : addNode [] n = .error .malformedHierarchy := by
  unfold addNode
  rw [if_neg h1, if_pos h2]

theorem addNode_snap_cons (p : GNode) (rest : List GNode) (n : GNode)
    (h1 : n.kind ≠ "filesystem") (h2 : n.kind = "snapshot") :
    addNode (p :: rest) n =
      .ok (GNode.mk p.row p.kind (p.children ++ [n]) :: rest) := by
  unfold addNode
  rw [if_neg h1, if_pos h2]

theorem addNode_other (acc : List GNode) (n : GNode) (h1 : n.kind ≠ "filesystem")
    (h2 : n.kind ≠ "snapshot") : addNode acc n = .ok acc := by
  unfold addNode
  rw [if_neg h1, if_neg h2]

theorem mkNode_shape (props : List String) (strf : ℤ → String) (fs : Record) (n : GNode)
    (h : mkNode props strf fs = .ok n) :
    n.children = [] ∧ dictLookup fs "type" = some n.kind := by
  unfold mkNode at h
  cases hb : buildRow strf fs props with
  | error e => rw [hb] at h; exact Except.noConfusion h
  | ok row =>
    rw [hb] at h
    have h1 : (match dictLookup fs "type" with
      | none => Except.error BuildError.keyError
      | some k => Except.ok (GNode.mk row k [])) = Except.ok n := h
    cases ht : dictLookup fs "type" with
    | none => rw [ht] at h1; exact Except.noConfusion h1
    | some k =>
      rw [ht] at h1
      have h2 : Except.ok (ε := BuildError) (GNode.mk row k []) = Except.ok n := h1
      injection h2 with h3
      subst h3
      exact ⟨rfl, rfl⟩

theorem mkNodes_children (props : List String) (strf : ℤ → String) :
    ∀ (recs : List Record) (ns : List GNode), mkNodes props strf recs = .ok ns →
      ∀ n ∈ ns, n.children = [] := by
  intro recs
  induction recs with
  | nil =>
    intro ns h n hn
    have h2 : Except.ok (ε := BuildError) ([] : List GNode) = Except.ok ns := h
    injection h2 with h3
    subst h3
    exact absurd hn (List.not_mem_nil n)
  | cons r rs ih =>
    intro ns h n hn
    rw [mkNodes_cons] at h
    cases hr : mkNode props strf r with
    | error e => rw [hr] at h; exact Except.noConfusion h
    | ok m =>
      rw [hr] at h
      have h1 : (match mkNodes props strf rs with
        | Except.error e => Except.error e
        | Except.ok ns => Except.ok (m :: ns)) = Except.ok ns := h
      cases hrs : mkNodes props strf rs with
      | error e => rw [hrs] at h1; exact Except.noConfusion h1
      | ok ms =>
        rw [hrs] at h1
        have h2 : Except.ok (ε := BuildError) (m :: ms) = Except.ok ns := h1
        injection h2 with h3
        subst h3
        rcases List.mem_cons.mp hn with rfl | hn2
        · exact (mkNode_shape props strf r n hr).1
        · exact ih ms hrs n hn2

theorem build_tree_aux_ok (props : List String) (strf : ℤ → String) :
    ∀ (recs : List Record) (acc t : List GNode),
      build_tree_aux props strf recs acc = .ok t →
      ∃ ns, mkNodes props strf recs = .ok ns ∧ foldAdd acc ns = .ok t := by
  intro recs
  induction recs with
  | nil =>
    intro acc t h
    exact ⟨[], rfl, h⟩
  | cons r rs ih =>
    intro acc t h
    rw [build_tree_aux_cons] at h
    cases hr : mkNode props strf r with
    | error e => rw [hr] at h; exact Except.noConfusion h
    | ok n =>
      rw [hr] at h
      have h1 : (match addNode acc n with
        | Except.error e => Except.error e
        | Except.ok acc2 => build_tree_aux props strf rs acc2) = Except.ok t := h
      cases ha : addNode acc n with
      | error e => rw [ha] at h1; exact Except.noConfusion h1
      | ok acc2 =>
        rw [ha] at h1
        have h2 : build_tree_aux props strf rs acc2 = Except.ok t := h1
        obtain ⟨ns, hns, hfold⟩ := ih acc2 t h2
        refine ⟨n :: ns, ?_, ?_⟩
        · rw [mkNodes_cons, hr, hns]
        · rw [foldAdd_cons, ha]
          exact hfold

theorem flattenInfo_append : ∀ l1 l2 : List GNode,
    flattenInfo (l1 ++ l2) = flattenInfo l1 ++ flattenInfo l2 := by
  intro l1 l2
  induction l1 with
  | nil => rfl
  | cons n t ih =>
    show (nodeInfo n :: n.children.map nodeInfo) ++ flattenInfo (t ++ l2) =
      ((nodeInfo n :: n.children.map nodeInfo) ++ flattenInfo t) ++ flattenInfo l2
    rw [ih, List.append_assoc]

theorem flattenInfo_single (m : GNode) :
    flattenInfo [m] = nodeInfo m :: m.children.map nodeInfo := by
  show (nodeInfo m :: m.children.map nodeInfo) ++ flattenInfo [] = _
  rw [show flattenInfo [] = [] from rfl, List.append_nil]

theorem foldAdd_props :
    ∀ (ns acc t : List GNode),
      foldAdd acc ns = .ok t →
      (∀ n ∈ ns, n.children = []) →
      (∀ n ∈ acc, n.kind = "filesystem" ∧
        ∀ c ∈ n.children, c.kind = "snapshot" ∧ c.children = []) →
      ((∀ n ∈ t, n.kind = "filesystem" ∧
          ∀ c ∈ n.children, c.kind = "snapshot" ∧ c.children = []) ∧
        t.map nodeInfo = acc.reverse.map nodeInfo ++
          (ns.filter (fun n => n.kind == "filesystem")).map nodeInfo ∧
        flattenInfo t = flattenInfo acc.reverse ++
          (ns.filter (fun n => n.kind == "filesystem" || n.kind == "snapshot")).map
            nodeInfo) := by
  intro ns
  induction ns with
  | nil =>
    intro acc t h _ hacc
    have h2 : Except.ok (ε := BuildError) acc.reverse = Except.ok t := h
    injection h2 with h3
    subst h3
    refine ⟨fun n hn => hacc n (List.mem_reverse.mp hn), by simp, by simp⟩
  | cons n ns ih =>
    intro acc t h hch hacc
    have hnch : n.children = [] := hch n (List.mem_cons_self n ns)
    have hch2 : ∀ m ∈ ns, m.children = [] := fun m hm => hch m (List.mem_cons_of_mem n hm)
    rw [foldAdd_cons] at h
    by_cases hf : n.kind = "filesystem"
    · rw [addNode_fs acc n hf] at h
      have h2 : foldAdd (n :: acc) ns = .ok t := h
      have hacc2 : ∀ m ∈ n :: acc, m.kind = "filesystem" ∧
          ∀ c ∈ m.children, c.kind = "snapshot" ∧ c.children = [] := by
        intro m hm
        rcases List.mem_cons.mp hm with rfl | hm2
        · refine ⟨hf, ?_⟩
          rw [hnch]
          intro c hc
          exact absurd hc (List.not_mem_nil c)
        · exact hacc m hm2
      obtain ⟨hk, hmap, hflat⟩ := ih (n :: acc) t h2 hch2 hacc2
      have hfilters : (List.filter (fun m => m.kind == "filesystem") (n :: ns)) =
          n :: List.filter (fun m => m.kind == "filesystem") ns := by
        rw [List.filter_cons_of_pos]
        simp [hf]
      have hfilterboth : (List.filter
          (fun m => m.kind == "filesystem" || m.kind == "snapshot") (n :: ns)) =
          n :: List.filter (fun m => m.kind == "filesystem" || m.kind == "snapshot") ns := by
        rw [List.filter_cons_of_pos]
        simp [hf]
      refine ⟨hk, ?_, ?_⟩
      · rw [hmap, hfilters, List.reverse_cons]
        simp [List.append_assoc]
      · rw [hflat, hfilterboth, List.reverse_cons, flattenInfo_append, flattenInfo_single,
          hnch]
        simp [List.append_assoc]
    · by_cases hs : n.kind = "snapshot"
      · cases acc with
        | nil =>
          rw [addNode_snap_nil n hf hs] at h
          exact Except.noConfusion h
        | cons p rest =>
          rw [addNode_snap_cons p rest n hf hs] at h
          have h2 : foldAdd (GNode.mk p.row p.kind (p.children ++ [n]) :: rest) ns =
            .ok t := h
          obtain ⟨hpk, hpc⟩ := hacc p (List.mem_cons_self p rest)
          have hacc2 : ∀ m ∈ GNode.mk p.row p.kind (p.children ++ [n]) :: rest,
              m.kind = "filesystem" ∧
              ∀ c ∈ m.children, c.kind = "snapshot" ∧ c.children = [] := by
            intro m hm
            rcases List.mem_cons.mp hm with rfl | hm2
            · refine ⟨hpk, ?_⟩
              intro c hc
              rcases List.mem_append.mp hc with hc1 | hc2
              · exact hpc c hc1
              · have hcn : c = n := by simpa using hc2
                subst hcn
                exact ⟨hs, hnch⟩
            · exact hacc m (List.mem_cons_of_mem p hm2)
          obtain ⟨hk, hmap, hflat⟩ := ih _ t h2 hch2 hacc2
          have hfilters : (List.filter (fun m => m.kind == "filesystem") (n :: ns)) =
              List.filter (fun m => m.kind == "filesystem") ns := by
            rw [List.filter_cons_of_neg]
            simp [hf]
          have hfilterboth : (List.filter
              (fun m => m.kind == "filesystem" || m.kind == "snapshot") (n :: ns)) =
              n :: List.filter (fun m => m.kind == "filesystem" || m.kind == "snapshot")
                ns := by
            rw [List.filter_cons_of_pos]
            simp [hs]
          have hinfo : nodeInfo (GNode.mk p.row p.kind (p.children ++ [n])) =
            nodeInfo p := rfl
          refine ⟨hk, ?_, ?_⟩
          · rw [hmap, hfilters, List.reverse_cons, List.reverse_cons, List.map_append,
              List.map_append]
            simp [hinfo]
          · rw [hflat, hfilterboth, List.reverse_cons, List.reverse_cons,
              flattenInfo_append, flattenInfo_append, flattenInfo_single,
              flattenInfo_single, hinfo]
            show _ ++ ((p.row, p.kind) :: (p.children ++ [n]).map nodeInfo) ++ _ = _
            rw [List.map_append]
            simp [List.append_assoc, nodeInfo]
      · rw [addNode_other acc n hf hs] at h
        have h2 : foldAdd acc ns = .ok t := h
        obtain ⟨hk, hmap, hflat⟩ := ih acc t h2 hch2 hacc
        have hfilters : (List.filter (fun m => m.kind == "filesystem") (n :: ns)) =
            List.filter (fun m => m.kind == "filesystem") ns := by
          rw [List.filter_cons_of_neg]
          simp [hf]
        have hfilterboth : (List.filter
            (fun m => m.kind == "filesystem" || m.kind == "snapshot") (n :: ns)) =
            List.filter (fun m => m.kind == "filesystem" || m.kind == "snapshot") ns := by
          rw [List.filter_cons_of_neg]
          simp [hf, hs]
        rw [hfilters, hfilterboth]
        exact ⟨hk, hmap, hflat⟩

/-- C4: for every record sequence on which `build_tree` succeeds, the
resulting Tree has as root nodes exactly the nodes of the `filesystem`
records in their input order; interleaving the roots with their children
reproduces exactly the filesystem-or-snapshot records in input order (so
each snapshot node is a child of the nearest preceding filesystem record,
with children ordered by arrival); every root node has kind `filesystem`,
and every child node has kind `snapshot` and no children of its own. -/
theorem build_tree_structure (recs : List Record) (props : List String)
    (strf : ℤ → String) (t ns : List GNode)
    (h : build_tree recs props strf = .ok t)
    (hns : mkNodes props strf recs = .ok ns) :
    (∀ n ∈ t, n.kind = "filesystem" ∧
      ∀ c ∈ n.children, c.kind = "snapshot" ∧ c.children = []) ∧
    t.map nodeInfo = (ns.filter (fun n => n.kind == "filesystem")).map nodeInfo ∧
    flattenInfo t =
      (ns.filter (fun n => n.kind == "filesystem" || n.kind == "snapshot")).map
        nodeInfo := by
  obtain ⟨ns2, hns2, hfold⟩ := build_tree_aux_ok props strf recs [] t h
  rw [hns] at hns2
  injection hns2 with he
  subst he
  have hch : ∀ n ∈ ns, n.children = [] := mkNodes_children props strf recs ns hns
  have hacc : ∀ n ∈ ([] : List GNode), n.kind = "filesystem" ∧
      ∀ c ∈ n.children, c.kind = "snapshot" ∧ c.children = [] := by
    intro n hn
    exact absurd hn (List.not_mem_nil n)
  obtain ⟨hk, hmap, hflat⟩ := foldAdd_props ns [] t hfold hch hacc
  refine ⟨hk, ?_, ?_⟩
  · rw [hmap]
    rfl
  · rw [hflat]
    rfl

/-- C5: a record sequence whose first snapshot record precedes any
filesystem record makes `build_tree` fail with the MalformedHierarchy
error (the code's unbound `parent` at src line 107), producing no tree.
The records before the snapshot are assumed to produce nodes themselves
(otherwise their own error aborts the build first). -/
theorem build_snapshot_first (pre rest : List Record) (snap : Record)
    (props : List String) (strf : ℤ → String)
    (hpre : ∀ r ∈ pre, (mkNode props strf r).isOk = true ∧
      dictLookup r "type" ≠ some "filesystem" ∧ dictLookup r "type" ≠ some "snapshot")
    (hsnapok : (mkNode props strf snap).isOk = true)
    (hsnap : dictLookup snap "type" = some "snapshot") :
    build_tree (pre ++ snap :: rest) props strf = .error .malformedHierarchy := by
  show build_tree_aux props strf (pre ++ snap :: rest) [] = .error .malformedHierarchy
  induction pre with
  | nil =>
    cases hm : mkNode props strf snap with
    | error e =>
      rw [hm] at hsnapok
      exact absurd hsnapok (by simp [Except.isOk, Except.toBool])
    | ok n =>
      have hkind : n.kind = "snapshot" := by
        have h2 := (mkNode_shape props strf snap n hm).2
        rw [hsnap] at h2
        injection h2 with h3
        exact h3.symm
      rw [List.nil_append, build_tree_aux_cons, hm]
      show (match addNode [] n with
        | Except.error e => Except.error e
        | Except.ok acc2 => build_tree_aux props strf rest acc2) =
        Except.error BuildError.malformedHierarchy
      rw [addNode_snap_nil n (by rw [hkind]; decide) hkind]
  | cons r pre2 ih =>
    have hr := hpre r (List.mem_cons_self r pre2)
    cases hm : mkNode props strf r with
    | error e =>
      rw [hm] at hr
      exact absurd hr.1 (by simp [Except.isOk, Except.toBool])
    | ok n =>
      have hkind := (mkNode_shape props strf r n hm).2
      have hk1 : n.kind ≠ "filesystem" := by
        intro hx
        rw [hx] at hkind
        exact hr.2.1 hkind
      have hk2 : n.kind ≠ "snapshot" := by
        intro hx
        rw [hx] at hkind
        exact hr.2.2 hkind
      rw [List.cons_append, build_tree_aux_cons, hm]
      show (match addNode [] n with
        | Except.error e => Except.error e
        | Except.ok acc2 => build_tree_aux props strf (pre2 ++ snap :: rest) acc2) =
        Except.error BuildError.malformedHierarchy
      rw [addNode_other [] n hk1 hk2]
      exact ih (fun q hq => hpre q (List.mem_cons_of_mem r hq))

/-- C10: a record whose type is neither `filesystem` nor `snapshot`
(for example a volume) contributes nothing to the tree and leaves the
current owning filesystem unchanged: removing it from the record sequence
yields the identical build result, so a subsequent snapshot attaches to
the most recent filesystem record across the dropped record. -/
theorem build_drops_unknown_kind (pre post : List Record) (vol : Record)
    (props : List String) (strf : ℤ → String)
    (hok : (mkNode props strf vol).isOk = true)
    (hk1 : dictLookup vol "type" ≠ some "filesystem")
    (hk2 : dictLookup vol "type" ≠ some "snapshot") :
    build_tree (pre ++ vol :: post) props strf = build_tree (pre ++ post) props strf := by
  show build_tree_aux props strf (pre ++ vol :: post) [] =
    build_tree_aux props strf (pre ++ post) []
  have main : ∀ (pre2 : List Record) (acc : List GNode),
      build_tree_aux props strf (pre2 ++ vol :: post) acc =
        build_tree_aux props strf (pre2 ++ post) acc := by
    intro pre2
    induction pre2 with
    | nil =>
      intro acc
      cases hm : mkNode props strf vol with
      | error e =>
        rw [hm] at hok
        exact absurd hok (by simp [Except.isOk, Except.toBool])
      | ok n =>
        have hkind := (mkNode_shape props strf vol n hm).2
        have hn1 : n.kind ≠ "filesystem" := by
          intro hx
          rw [hx] at hkind
          exact hk1 hkind
        have hn2 : n.kind ≠ "snapshot" := by
          intro hx
          rw [hx] at hkind
          exact hk2 hkind
        rw [List.nil_append, List.nil_append, build_tree_aux_cons, hm]
        show (match addNode acc n with
          | Except.error e => Except.error e
          | Except.ok acc2 => build_tree_aux props strf post acc2) =
          build_tree_aux props strf post acc
        rw [addNode_other acc n hn1 hn2]
    | cons r pre3 ih =>
      intro acc
      rw [List.cons_append, List.cons_append, build_tree_aux_cons, build_tree_aux_cons]
      cases hm : mkNode props strf r with
      | error e => rfl
      | ok n =>
        show (match addNode acc n with
          | Except.error e => Except.error e
          | Except.ok acc2 => build_tree_aux props strf (pre3 ++ vol :: post) acc2) =
          (match addNode acc n with
          | Except.error e => Except.error e
          | Except.ok acc2 => build_tree_aux props strf (pre3 ++ post) acc2)
        cases ha : addNode acc n with
        | error e => rfl
        | ok acc2 => exact ih acc2
  exact main pre []

theorem buildRow_cons (strf : ℤ → String) (fs : Record) (p : String) (ps : List String) :
    buildRow strf fs (p :: ps) =
      match cellsForProp strf fs p with
      | Except.error e => Except.error e
      | Except.ok cs =>
        match buildRow strf fs ps with
        | Except.error e => Except.error e
        | Except.ok rest => Except.ok (cs ++ rest) := rfl

theorem buildRow_infix (strf : ℤ → String) (fs : Record) :
    ∀ (props2 : List String) (row cs : List Cell) (prop : String),
      prop ∈ props2 → buildRow strf fs props2 = .ok row →
      cellsForProp strf fs prop = .ok cs → cs <:+: row := by
  intro props2
  induction props2 with
  | nil =>
    intro row cs prop hp _ _
    exact absurd hp (List.not_mem_nil prop)
  | cons p ps ih =>
    intro row cs prop hp hrow hcs
    rw [buildRow_cons] at hrow
    cases hc : cellsForProp strf fs p with
    | error e => rw [hc] at hrow; exact Except.noConfusion hrow
    | ok cs1 =>
      rw [hc] at hrow
      have hrow1 : (match buildRow strf fs ps with
        | Except.error e => Except.error e
        | Except.ok rest => Except.ok (cs1 ++ rest)) = Except.ok row := hrow
      cases hb : buildRow strf fs ps with
      | error e => rw [hb] at hrow1; exact Except.noConfusion hrow1
      | ok rest =>
        rw [hb] at hrow1
        have h2 : Except.ok (ε := BuildError) (cs1 ++ rest) = Except.ok row := hrow1
        injection h2 with h3
        subst h3
        rcases List.mem_cons.mp hp with rfl | hp2
        · rw [hc] at hcs
          injection hcs with h4
          subst h4
          exact ⟨[], rest, rfl⟩
        · obtain ⟨s, t2, hst⟩ := ih rest cs prop hp2 hb hcs
          refine ⟨cs1 ++ s, t2, ?_⟩
          rw [← hst]
          simp [List.append_assoc]

theorem cellsForProp_size (strf : ℤ → String) (fs : Record) (prop raw : String)
    (hp : prop ∈ SIZE_PROPERTIES) (hv : dictLookup fs prop = some raw) :
    cellsForProp strf fs prop =
      if raw = "-" then .ok [Cell.s "-", Cell.f 0]
      else match pyInt raw with
        | Except.error e => Except.error e
        | Except.ok n =>
          Except.ok [Cell.s (human_readable n true), Cell.f (fround (qofInt n))] := by
  unfold cellsForProp
  rw [if_pos hp, hv]

/-- C6: for every size-metric property field of a record, the build
contributes exactly two adjacent row values: the sentinel `-` yields the
display string `-` with numeric sort key 0, and a byte-count string parsed
as the integer n yields the binary-mode human-readable display string
together with the float sort key `fround n` — which equals n exactly
whenever 0 ≤ n ≤ 2^53, but is the nearest IEEE-754 double (not n itself)
in general. -/
theorem size_metric_cells (strf : ℤ → String) (fs : Record) (prop raw : String)
    (hp : prop ∈ SIZE_PROPERTIES) (hv : dictLookup fs prop = some raw) :
    (raw = "-" → cellsForProp strf fs prop = .ok [Cell.s "-", Cell.f 0]) ∧
    (∀ n : ℤ, raw ≠ "-" → pyInt raw = .ok n →
      (cellsForProp strf fs prop =
        .ok [Cell.s (human_readable n true), Cell.f (fround (qofInt n))] ∧
      (0 ≤ n → n ≤ 2 ^ 53 → fround (qofInt n) = qofInt n))) ∧
    (∀ (props2 : List String) (row cs : List Cell), prop ∈ props2 →
      buildRow strf fs props2 = .ok row → cellsForProp strf fs prop = .ok cs →
      cs <:+: row) := by
  refine ⟨?_, ?_, ?_⟩
  · intro hdash
    rw [cellsForProp_size strf fs prop raw hp hv, if_pos hdash]
  · intro n hne hint
    constructor
    · rw [cellsForProp_size strf fs prop raw hp hv, if_neg hne, hint]
    · intro h0 h53
      exact fround_intCast n h0 h53
  · intro props2 row cs hp2 hrow hcs
    exact buildRow_infix strf fs props2 row cs prop hp2 hrow hcs

/-- C1: the claim is the code's intent but not its behaviour.  The
expansion set captured from the old store is {"tank"}, the new store
contains "tank" (at position 1), yet the refresh expands tree path 0 of
the new store — the `zpool` node — and not the `tank` node: the expansion
loop at src lines 219-221 iterates the stale `self.store` (never
reassigned after `set_model`) and expands old-store indices in the new
view. -/
theorem refresh_expansion_mismatch :
    capture_expanded_rows oldStore1 (fun i => i == 0) = [Cell.s "tank"] ∧
    refresh_tree oldStore1 (fun i => i == 0) = [0] ∧
    expanded_keys_after_refresh oldStore1 (fun i => i == 0) newStore1 = [Cell.s "zpool"] ∧
    rowKey tankNode = Cell.s "tank" ∧ rowKey zpoolNode = Cell.s "zpool" :=
  ⟨rfl, rfl, rfl, rfl, rfl⟩

/-- C2 (counterexample): a non-empty line with five tab-separated fields
against a schema of length four parses successfully — the code never
checks the field count, it just reads the first `len(schema)` fields — so
the claim's universal parse failure is false. -/
theorem parse_extra_fields_succeeds :
    parse_zfs_list_output ["a\tb\tc\td\te"] ["name", "used", "available", "type"] =
      .ok [[("name", "a"), ("used", "b"), ("available", "c"), ("type", "d")]] := rfl

/-- C2 (amended): a non-empty line with fewer tab-separated fields than
the schema makes the whole parse fail (an uncaught IndexError that does
not identify the line position), so no record list is produced; lines
with at least as many fields as the schema parse successfully, extra
fields being ignored. -/
theorem parse_field_count_amended (lines props : List String) :
    ((∀ l ∈ lines, l ≠ "" → props.length ≤ (pySplit '\t' l).length) →
      (parse_zfs_list_output lines props).isOk = true) ∧
    (∀ l ∈ lines, l ≠ "" → (pySplit '\t' l).length < props.length →
      (parse_zfs_list_output lines props).isOk = false) :=
  ⟨parse_all_lines_ok props lines,
   fun l hl hne hc => parse_short_line_fails lines props l hl hne hc⟩

theorem parse_field_count_amended_witness :
    (parse_zfs_list_output ["a\tb"] ["name", "used", "available", "type"]).isOk = false ∧
    (parse_zfs_list_output ["a\tb\tc\td\te"]
      ["name", "used", "available", "type"]).isOk = true :=
  ⟨(parse_field_count_amended ["a\tb"] ["name", "used", "available", "type"]).2
      "a\tb" (by decide) (by decide) (by decide),
   (parse_field_count_amended ["a\tb\tc\td\te"] ["name", "used", "available", "type"]).1
      (by decide)⟩

/-- C3 (counterexample): for the caller-supplied string "used,name,used"
the code returns ["used", "name", "used"]: `name` is not at index 0 and
the list has duplicates, so the claimed invariant is false. -/
theorem normalize_props_counterexample :
    normalize_props "used,name,used" = ["used", "name", "used"] ∧
    (normalize_props "used,name,used").head? ≠ some "name" ∧
    ¬ (normalize_props "used,name,used").Nodup :=
  ⟨rfl, by decide, by decide⟩

theorem normalize_props_spec_witness :
    (normalize_props "used").head? = some "name" ∧ "name" ∈ normalize_props "used" :=
  ⟨(normalize_props_spec "used").2.2.2.2 (by decide), (normalize_props_spec "used").1⟩

theorem build_tree_structure_witness :
    sampleTree.map nodeInfo = [([Cell.s "tank"], "filesystem")] ∧
    flattenInfo sampleTree =
      [([Cell.s "tank"], "filesystem"), ([Cell.s "tank@s1"], "snapshot")] := by
  have h := build_tree_structure sampleRecs sampleProps strf0 sampleTree sampleNodes rfl rfl
  exact ⟨h.2.1.trans (by rfl), h.2.2.trans (by rfl)⟩

theorem build_snapshot_first_witness :
    build_tree [volRec, snapRec] sampleProps strf0 = .error .malformedHierarchy :=
  build_snapshot_first [volRec] [] snapRec sampleProps strf0
    (by
      intro r hr
      have hr2 : r = volRec := by simpa using hr
      subst hr2
      exact ⟨rfl, by decide, by decide⟩)
    rfl rfl

/-- C6 (counterexample): the byte count 2^53 + 1 is parsed from the raw
field but its float sort key is 2^53: the sort key is the nearest IEEE-754
double, not the raw value, so "a numeric sort key exactly equal to n" is
false for n = 9007199254740993. -/
theorem sort_key_inexact_counterexample :
    cellsForProp strf0 bigRec "used" =
      .ok [Cell.s (human_readable 9007199254740993 true),
        Cell.f (qofInt 9007199254740992)] ∧
    fround (qofInt 9007199254740993) = qofInt 9007199254740992 ∧
    qofInt 9007199254740992 ≠ qofInt 9007199254740993 :=
  ⟨rfl, by decide, by decide⟩

theorem size_metric_cells_witness :
    cellsForProp strf0 usedRec "used" =
      .ok [Cell.s (human_readable 1536 true), Cell.f (fround (qofInt 1536))] ∧
    fround (qofInt 1536) = qofInt 1536 := by
  have h := (size_metric_cells strf0 usedRec "used" "1536" (by decide) rfl).2.1 1536
    (by decide) rfl
  exact ⟨h.1, h.2 (by decide) (by decide)⟩

/-- C7 (counterexample): at 2^80 bytes the binary formatter reaches its
terminal unit and prints "1.0YiB" — suffix `YiB`, one decimal place — while
the claim's terminal unit `Yi` with the two-decimals-below-10 rule would
give "1.00Yi". -/
theorem terminal_unit_counterexample :
    human_readable (2 ^ 80) true = "1.0YiB" ∧
    claimed_format (2 ^ 80) true = "1.00Yi" ∧
    human_readable (2 ^ 80) true ≠ claimed_format (2 ^ 80) true :=
  ⟨by decide, by decide, by decide⟩

/-- C8: the four pinned formatter values hold: format(999, false) is
"999 B", format(1000, false) is "1.00 KB", format(1536, true) is "1.50K",
and format(0, true) is "0B". -/
theorem human_readable_concrete_examples :
    human_readable 999 false = "999 B" ∧ human_readable 1000 false = "1.00 KB" ∧
    human_readable 1536 true = "1.50K" ∧ human_readable 0 true = "0B" :=
  ⟨by decide, by decide, by decide, by decide⟩

/-- C9 (counterexample): the decoded output "\n" yields no records, yet
build_treestore returns an empty tree instead of failing: the
EmptyInventory check at src line 71 compares the split output against
[''] — i.e. fires only when the raw output is the empty string. -/
theorem no_records_without_error :
    parse_zfs_list_output (pySplit '\n' "\n") (["name"] ++ ["type"]) = .ok [] ∧
    build_treestore "\n" ["name"] strf0 = .ok [] := ⟨rfl, rfl⟩

theorem build_treestore_empty_cases_witness :
    build_treestore "" ["name"] strf0 = .error .emptyInventory ∧
    build_treestore "\n" ["name"] strf0 = .ok [] :=
  ⟨(build_treestore_empty_cases ["name"] strf0).1,
   (build_treestore_empty_cases ["name"] strf0).2 "\n" (by decide) (by decide)⟩

theorem build_drops_unknown_kind_witness :
    build_tree [fsRec, volRec, snapRec] sampleProps strf0 =
      build_tree [fsRec, snapRec] sampleProps strf0 :=
  build_drops_unknown_kind [fsRec] [snapRec] volRec sampleProps strf0 rfl (by decide)
    (by decide)
